import Mathlib

/-!
Verification of the survey-collection application's data-access and
statistics layer (`src/ap.py`), shallowly embedded in Lean.

The relational store is embedded as a `DB` state holding the three tables
(`users`, `responses`, `lideranca_responses`) as lists of typed rows, with
counters standing for the SERIAL id sequences, the wall clock (timestamps)
and the UUID generator.  The SHA-256 digest `hash_password` is opaque to the
logic verified here, so every credential operation is parametrized by the
digest function `hash : String → String`.  Fallible database writes take an
explicit failure oracle; an exception in the Python code triggers
`conn.rollback()` and a `False` return, which the embedding renders as
returning the unchanged state paired with `false`.  Floating-point means are
embedded as exact rationals, and `time.time()` differences as rationals.
-/

namespace Inquerito

/- ### Data model: the three persisted tables (src/ap.py, init_db) -/

/-- A row of the `users` table: `id SERIAL, username TEXT UNIQUE,
password TEXT, role TEXT, created_at TIMESTAMP`. -/
structure UserRow where
  id : Nat
  username : String
  password : String
  role : String
  created_at : Nat
deriving Repr, DecidableEq

/-- A row of the `responses` (HPO) table: 14 nullable integer scores
`a1..g2`, a free-text comment, and a generated session id. -/
structure HPORow where
  id : Nat
  timestamp : Nat
  a1 : Option Int
  a2 : Option Int
  b1 : Option Int
  b2 : Option Int
  c1 : Option Int
  c2 : Option Int
  d1 : Option Int
  d2 : Option Int
  e1 : Option Int
  e2 : Option Int
  f1 : Option Int
  f2 : Option Int
  g1 : Option Int
  g2 : Option Int
  comentario : String
  session_id : Nat
deriving Repr, DecidableEq

/-- A row of the `lideranca_responses` table: one answered question of one
submission. -/
structure LidRow where
  id : Nat
  session_id : Nat
  timestamp : Nat
  question_id : String
  response : String
  response_time : Rat
deriving Repr, DecidableEq

/-- The database state: the three tables plus the id sequences, the UUID
source and the clock.  `uuidSeed` models `uuid.uuid4()`: each generated
session identifier is the current seed, and freshness of generated ids is
expressed by the invariant that every stored session id is `< uuidSeed`. -/
structure DB where
  users : List UserRow
  responses : List HPORow
  lideranca : List LidRow
  nextUserId : Nat
  nextHpoId : Nat
  nextLidId : Nat
  uuidSeed : Nat
  clock : Nat
deriving Repr, DecidableEq

/-- The identity returned by a successful login:
`SELECT id, username, role`. -/
structure UserInfo where
  id : Nat
  username : String
  role : String
deriving Repr, DecidableEq

/- ### Credential store (src/ap.py: check_login, add_user) -/

/-- `check_login` (src/ap.py lines 169-196): hashes the supplied password and
returns the first row matching both username and hash, projected to
`(id, username, role)`. -/
def check_login (hash : String → String) (db : DB) (username password : String) :
    Option UserInfo :=
  (db.users.find? (fun r => r.username == username && r.password == hash password)).map
    (fun r => ⟨r.id, r.username, r.role⟩)

/-- `add_user` (src/ap.py lines 198-222): `INSERT ... ON CONFLICT (username)
DO NOTHING`; the call reports success exactly when `rowcount > 0`, i.e. when
no row with that username already existed. -/
def add_user (hash : String → String) (db : DB) (username password role : String) :
    DB × Bool :=
  if db.users.any (fun r => r.username == username) then
    (db, false)
  else
    ({ db with
        users := db.users ++ [⟨db.nextUserId, username, hash password, role, db.clock⟩],
        nextUserId := db.nextUserId + 1,
        clock := db.clock + 1 }, true)

/- ### Survey repository (src/ap.py: load/save/delete) -/

/-- `load_hpo_responses` (src/ap.py lines 250-260):
`SELECT * FROM responses ORDER BY timestamp DESC`. -/
def load_hpo_responses (db : DB) : List HPORow :=
  List.insertionSort (fun a b => b.timestamp ≤ a.timestamp) db.responses

/-- `load_lideranca_responses` (src/ap.py lines 289-297):
`SELECT * FROM lideranca_responses ORDER BY timestamp DESC`. -/
def load_lideranca_responses (db : DB) : List LidRow :=
  List.insertionSort (fun a b => b.timestamp ≤ a.timestamp) db.lideranca

/-- `save_hpo_response` (src/ap.py lines 262-287): one INSERT of the 14
scores, the comment and a fresh session id; on failure the transaction is
rolled back and `False` returned.  The failure oracle `fail` stands for the
exception the `except` branch catches. -/
def save_hpo_response (fail : Bool) (db : DB) (responses : List Int)
    (comentario : String) : DB × Bool :=
  if fail then (db, false)
  else
    let row : HPORow :=
      { id := db.nextHpoId, timestamp := db.clock,
        a1 := responses[0]?, a2 := responses[1]?, b1 := responses[2]?,
        b2 := responses[3]?, c1 := responses[4]?, c2 := responses[5]?,
        d1 := responses[6]?, d2 := responses[7]?, e1 := responses[8]?,
        e2 := responses[9]?, f1 := responses[10]?, f2 := responses[11]?,
        g1 := responses[12]?, g2 := responses[13]?,
        comentario := comentario, session_id := db.uuidSeed }
    ({ db with
        responses := db.responses ++ [row],
        nextHpoId := db.nextHpoId + 1,
        uuidSeed := db.uuidSeed + 1,
        clock := db.clock + 1 }, true)

/-- One answer triple passed to `save_lideranca_response`:
`(question_id, response, response_time)`. -/
abbrev LAnswer := String × String × Rat

/-- The insert loop of `save_lideranca_response` (src/ap.py lines 308-313):
`for i, (question_id, response, response_time) in enumerate(question_data, 1)`
inserts `(session_id, f"q{i}", response, response_time)`.  Note the supplied
`question_id` is never used.  `none` models an exception at the `i`-th
insert. -/
def lidLoop (fail : Nat → Bool) (sid ts idBase : Nat) :
    Nat → List LAnswer → Option (List LidRow)
  | _, [] => some []
  | i, a :: rest =>
    if fail i then none
    else (lidLoop fail sid ts idBase (i + 1) rest).map
      (fun rows => ⟨idBase + i - 1, sid, ts, "q" ++ toString i, a.2.1, a.2.2⟩ :: rows)

/-- `save_lideranca_response` (src/ap.py lines 299-325): generates one fresh
session id, inserts one row per answer in a single transaction; any failing
insert rolls the whole transaction back and reports `False`. -/
def save_lideranca_response (fail : Nat → Bool) (db : DB)
    (question_data : List LAnswer) : DB × Bool :=
  match lidLoop fail db.uuidSeed db.clock db.nextLidId 1 question_data with
  | none => (db, false)
  | some rows =>
    ({ db with
        lideranca := db.lideranca ++ rows,
        nextLidId := db.nextLidId + question_data.length,
        uuidSeed := db.uuidSeed + 1,
        clock := db.clock + 1 }, true)

/-- `delete_all_responses` (src/ap.py lines 327-345): deletes every row of
both response tables in one transaction; on failure it rolls back and
reports `False`. -/
def delete_all_responses (fail : Bool) (db : DB) : DB × Bool :=
  if fail then (db, false)
  else ({ db with responses := [], lideranca := [] }, true)

/- ### Aggregation engine (src/ap.py: calculate_hpo_stats,
calculate_lideranca_stats) -/

/-- The 14 score columns of the `responses` table. -/
inductive Col
  | a1 | a2 | b1 | b2 | c1 | c2 | d1 | d2 | e1 | e2 | f1 | f2 | g1 | g2
deriving Repr, DecidableEq

/-- Column access `df[col]` on an HPO row. -/
def getCol : Col → HPORow → Option Int
  | .a1 => HPORow.a1
  | .a2 => HPORow.a2
  | .b1 => HPORow.b1
  | .b2 => HPORow.b2
  | .c1 => HPORow.c1
  | .c2 => HPORow.c2
  | .d1 => HPORow.d1
  | .d2 => HPORow.d2
  | .e1 => HPORow.e1
  | .e2 => HPORow.e2
  | .f1 => HPORow.f1
  | .f2 => HPORow.f2
  | .g1 => HPORow.g1
  | .g2 => HPORow.g2

/-- The `domains` dictionary of `calculate_hpo_stats` (src/ap.py lines
356-360): 7 fixed two-column domains. -/
def hpoDomains : List (String × List Col) :=
  [("A", [.a1, .a2]), ("B", [.b1, .b2]), ("C", [.c1, .c2]),
   ("D", [.d1, .d2]), ("E", [.e1, .e2]), ("F", [.f1, .f2]),
   ("G", [.g1, .g2])]

/-- `domain_scores`: for each column of the domain, the non-null values
(`df[col].dropna().tolist()`), extended column after column. -/
def pooledScores (df : List HPORow) (cols : List Col) : List Int :=
  cols.flatMap (fun c => df.filterMap (getCol c))

/-- Python `max` over a non-empty list (the default for `[]` is never used:
the code guards with `if domain_scores:`). -/
def pyMax : List Int → Int
  | [] => 0
  | x :: xs => xs.foldl max x

/-- Python `min` over a non-empty list. -/
def pyMin : List Int → Int
  | [] => 0
  | x :: xs => xs.foldl min x

/-- The per-domain statistics dictionary
`{'mean': ..., 'count': ..., 'max': ..., 'min': ...}`.  The float mean is
embedded as an exact rational. -/
structure DomStats where
  mean : Rat
  count : Nat
  max : Int
  min : Int
deriving Repr, DecidableEq

/-- The four statistics over a pooled score list. -/
def domStats (scores : List Int) : DomStats :=
  { mean := (scores.sum : Rat) / (scores.length : Rat),
    count := scores.length,
    max := pyMax scores,
    min := pyMin scores }

/-- The body of the per-domain loop: `stats[domain] = {...}` is executed only
`if domain_scores:`, so an empty pool contributes nothing. -/
def domainResult (df : List HPORow) (cols : List Col) : Option DomStats :=
  let ds := pooledScores df cols
  if ds.isEmpty then none else some (domStats ds)

/-- `calculate_hpo_stats` (src/ap.py lines 351-377): early return `{}` on an
empty frame, then one entry per domain with data, in the fixed order A..G of
the `domains` dictionary. -/
def calculate_hpo_stats (df : List HPORow) : List (String × DomStats) :=
  if df.isEmpty then []
  else hpoDomains.filterMap (fun p => (domainResult df p.2).map (fun v => (p.1, v)))

/-- Python `str.upper` on one character, restricted to ASCII and Latin-1
(the character repertoire relevant to this application, including
`'ã' ↦ 'Ã'`); `'ß'` expands to `"SS"` exactly as in Python. -/
def pyUpperChar (c : Char) : List Char :=
  if c = 'ß' then ['S', 'S']
  else if 'a' ≤ c ∧ c ≤ 'z' then [Char.ofNat (c.toNat - 32)]
  else if c = 'µ' then ['Μ']
  else if c = 'ÿ' then ['Ÿ']
  else if ('à' ≤ c ∧ c ≤ 'ö') ∨ ('ø' ≤ c ∧ c ≤ 'þ') then [Char.ofNat (c.toNat - 32)]
  else [c]

/-- Python `str.upper` (`.str.upper()` in src/ap.py line 389). -/
def pyUpper (s : String) : String :=
  ⟨s.toList.flatMap pyUpperChar⟩

/-- `pandas.unique`: the distinct values in order of first occurrence
(`df['question_id'].unique()`). -/
def uniqueFirst : List String → List String
  | [] => []
  | x :: xs => x :: uniqueFirst (xs.filter (fun y => y != x))
termination_by l => l.length
decreasing_by
  have h := List.length_filter_le (fun y => y != x) xs
  simp only [List.length_cons]
  omega

/-- `pd.Series(responses).value_counts().to_dict()`: the frequency of each
distinct response value, as a finite mapping (embedded as an association
list keyed by the distinct values in order of first occurrence; the dict
ordering of `value_counts` carries no mapping content). -/
def valueCounts (l : List String) : List (String × Nat) :=
  (uniqueFirst l).map (fun v => (v, l.count v))

/-- The per-question statistics dictionary
`{'total': ..., 'distribution': ...}`. -/
structure QStats where
  total : Nat
  distribution : List (String × Nat)
deriving Repr, DecidableEq

/-- The body of the per-question loop of `calculate_lideranca_stats`: the
question's responses, upper-cased, counted; executed only `if responses:`. -/
def questionResult (df : List LidRow) (q : String) : Option QStats :=
  let resps := (df.filter (fun r => r.question_id == q)).map (fun r => pyUpper r.response)
  if resps.isEmpty then none
  else some { total := resps.length, distribution := valueCounts resps }

/-- `calculate_lideranca_stats` (src/ap.py lines 379-399): early return `{}`
on an empty frame, then one entry per distinct `question_id` in order of
first occurrence. -/
def calculate_lideranca_stats (df : List LidRow) : List (String × QStats) :=
  if df.isEmpty then []
  else (uniqueFirst (df.map (fun r => r.question_id))).filterMap
    (fun q => (questionResult df q).map (fun v => (q, v)))

/- ### Bulk export (spec §4.4).
Modelled from the spec: the CSV serialization behind
`hpo_df.to_csv(index=False)` (src/ap.py line 506) and the reader that parses
the text back are pandas library code, absent from src/.  Following the
spec's words, `export_csv` renders the full row set, all columns, with a
header row, as comma-separated text, quoting fields that contain the
delimiter, the quote character or a line break (minimal quoting, quotes
doubled), one record per line with a terminating newline; `parseCsv` is the
standard quote-aware reader of that format. -/

/-- A character that forces a field to be quoted. -/
def specialChar (c : Char) : Bool :=
  c = ',' || c = '"' || c = '\n' || c = '\r'

/-- Double every quote character of a field body. -/
def dupQuotes (s : List Char) : List Char :=
  s.flatMap (fun c => if c = '"' then ['"', '"'] else [c])

/-- Minimal quoting: wrap and double quotes only when some character of the
field requires it. -/
def escapeCell (s : List Char) : List Char :=
  if s.any specialChar then '"' :: (dupQuotes s ++ ['"']) else s

/-- One CSV record: the escaped fields joined by commas. -/
def renderRecord : List (List Char) → List Char
  | [] => []
  | [c] => escapeCell c
  | c :: cs => escapeCell c ++ ',' :: renderRecord cs

/-- A CSV text: one line per record, each terminated by a newline. -/
def renderCsv (records : List (List (List Char))) : List Char :=
  records.flatMap (fun r => renderRecord r ++ ['\n'])

/-- Reader states: outside quotes, inside quotes, or just after a closing
quote (where a second quote means an escaped quote character). -/
inductive CsvMode
  | plain
  | quoted
  | qclose
deriving Repr, DecidableEq

/-- The CSV reader automaton: `cell` is the field read so far, `record` the
fields of the current record.  A comma outside quotes ends a field, a
newline outside quotes ends a record, quotes toggle quoted mode, and a
doubled quote inside a quoted field reads as one quote character. -/
def runCsv : List Char → List Char → List (List Char) → CsvMode → List (List (List Char))
  | [], cell, record, _ =>
    if cell = [] ∧ record = [] then [] else [record ++ [cell]]
  | c :: rest, cell, record, .quoted =>
    if c = '"' then runCsv rest cell record .qclose
    else runCsv rest (cell ++ [c]) record .quoted
  | c :: rest, cell, record, .qclose =>
    if c = '"' then runCsv rest (cell ++ ['"']) record .quoted
    else if c = ',' then runCsv rest [] (record ++ [cell]) .plain
    else if c = '\n' then (record ++ [cell]) :: runCsv rest [] [] .plain
    else runCsv rest (cell ++ [c]) record .plain
  | c :: rest, cell, record, .plain =>
    if c = ',' then runCsv rest [] (record ++ [cell]) .plain
    else if c = '\n' then (record ++ [cell]) :: runCsv rest [] [] .plain
    else if c = '"' then runCsv rest cell record .quoted
    else runCsv rest (cell ++ [c]) record .plain

/-- Parse a CSV text into its records. -/
def parseCsv (input : List Char) : List (List (List Char)) :=
  runCsv input [] [] .plain

/-- The columns of the `responses` table, in table order (`SELECT *`). -/
def hpoColumns : List String :=
  ["id", "timestamp", "a1", "a2", "b1", "b2", "c1", "c2", "d1", "d2",
   "e1", "e2", "f1", "f2", "g1", "g2", "comentario", "session_id"]

/-- The CSV header record. -/
def hpoHeader : List (List Char) :=
  hpoColumns.map String.toList

/-- Render one nullable integer column value (null renders empty). -/
def optIntCell (v : Option Int) : List Char :=
  match v with
  | some n => (toString n).toList
  | none => []

/-- The rendered field values of one HPO row, all columns in table order. -/
def hpoCells (r : HPORow) : List (List Char) :=
  [(toString r.id).toList, (toString r.timestamp).toList,
   optIntCell r.a1, optIntCell r.a2, optIntCell r.b1, optIntCell r.b2,
   optIntCell r.c1, optIntCell r.c2, optIntCell r.d1, optIntCell r.d2,
   optIntCell r.e1, optIntCell r.e2, optIntCell r.f1, optIntCell r.f2,
   optIntCell r.g1, optIntCell r.g2,
   r.comentario.toList, (toString r.session_id).toList]

/-- `export_csv`: header row followed by every row, all columns, no
filtering or transformation. -/
def export_csv (rows : List HPORow) : List Char :=
  renderCsv (hpoHeader :: rows.map hpoCells)

/- ### Lemmas: the CSV reader inverts the CSV writer -/

/-- After a closing quote, any character other than a quote is processed
exactly as outside quotes. -/
lemma runCsv_qclose_eq_plain (c : Char) (rest cell : List Char)
    (record : List (List Char)) (hc : c ≠ '"') :
    runCsv (c :: rest) cell record .qclose = runCsv (c :: rest) cell record .plain := by
  simp [runCsv, hc]

/-- Reading ordinary characters outside quotes accumulates them onto the
current field. -/
lemma runCsv_append_plain :
    ∀ (s : List Char), (∀ c ∈ s, specialChar c = false) →
    ∀ (rest cell : List Char) (record : List (List Char)),
    runCsv (s ++ rest) cell record .plain = runCsv rest (cell ++ s) record .plain := by
  intro s
  induction s with
  | nil => intro _ rest cell record; simp
  | cons c s ih =>
    intro hs rest cell record
    have hc := hs c (by simp)
    have h1 : ¬ (c = ',') := fun h => by simp [specialChar, h] at hc
    have h2 : ¬ (c = '"') := fun h => by simp [specialChar, h] at hc
    have h3 : ¬ (c = '\n') := fun h => by simp [specialChar, h] at hc
    simp only [List.cons_append, runCsv, if_neg h1, if_neg h3, if_neg h2, List.append_eq]
    rw [ih (fun x hx => hs x (by simp [hx])) rest (cell ++ [c]) record]
    simp

/-- Reading the quote-doubled body of a quoted field, up to and through its
closing quote, accumulates the original body onto the current field and
returns to plain mode. -/
lemma runCsv_quoted :
    ∀ (s : List Char) (rest cell : List Char) (record : List (List Char)),
    rest.head? ≠ some '"' →
    runCsv (dupQuotes s ++ '"' :: rest) cell record .quoted
      = runCsv rest (cell ++ s) record .plain := by
  intro s
  induction s with
  | nil =>
    intro rest cell record hrest
    simp only [dupQuotes, List.flatMap_nil, List.nil_append]
    show runCsv ('"' :: rest) cell record .quoted = _
    simp only [runCsv, if_pos rfl]
    cases rest with
    | nil => simp [runCsv]
    | cons c r =>
      have hc : c ≠ '"' := by
        intro h
        exact hrest (by simp [h])
      rw [runCsv_qclose_eq_plain c r cell record hc]
      simp
  | cons c s ih =>
    intro rest cell record hrest
    by_cases hc : c = '"'
    · subst hc
      rw [show dupQuotes ('"' :: s) = '"' :: '"' :: dupQuotes s from by simp [dupQuotes]]
      have h1 : runCsv ('"' :: '"' :: dupQuotes s ++ '"' :: rest) cell record .quoted
          = runCsv (dupQuotes s ++ '"' :: rest) (cell ++ ['"']) record .quoted := by
        simp [runCsv]
      rw [h1, ih rest (cell ++ ['"']) record hrest]
      simp
    · rw [show dupQuotes (c :: s) = c :: dupQuotes s from by simp [dupQuotes, hc]]
      have h1 : runCsv (c :: dupQuotes s ++ '"' :: rest) cell record .quoted
          = runCsv (dupQuotes s ++ '"' :: rest) (cell ++ [c]) record .quoted := by
        simp [runCsv, hc]
      rw [h1, ih rest (cell ++ [c]) record hrest]
      simp

/-- Reading an escaped field accumulates exactly the original field,
whatever characters it contains. -/
lemma runCsv_escapeCell (s rest cell : List Char) (record : List (List Char))
    (hrest : rest.head? ≠ some '"') :
    runCsv (escapeCell s ++ rest) cell record .plain
      = runCsv rest (cell ++ s) record .plain := by
  by_cases h : s.any specialChar
  · simp only [escapeCell, if_pos h]
    rw [show ('"' :: (dupQuotes s ++ ['"'])) ++ rest
          = '"' :: (dupQuotes s ++ '"' :: rest) from by simp]
    have step : runCsv ('"' :: (dupQuotes s ++ '"' :: rest)) cell record .plain
        = runCsv (dupQuotes s ++ '"' :: rest) cell record .quoted := by
      simp [runCsv]
    rw [step, runCsv_quoted s rest cell record hrest]
  · have hall : ∀ c ∈ s, specialChar c = false := by
      rw [Bool.not_eq_true] at h
      intro c hcs
      have := List.any_eq_false.1 h c hcs
      simpa using this
    simp only [escapeCell, if_neg h]
    exact runCsv_append_plain s hall rest cell record

/-- Reading a rendered record followed by a newline appends exactly its
fields as one record and continues with the rest of the input. -/
lemma runCsv_renderRecord :
    ∀ (cells : List (List Char)), cells ≠ [] →
    ∀ (rest : List Char) (record : List (List Char)),
    runCsv (renderRecord cells ++ '\n' :: rest) [] record .plain
      = (record ++ cells) :: runCsv rest [] [] .plain := by
  intro cells
  induction cells with
  | nil => exact fun h => absurd rfl h
  | cons c cs ih =>
    intro _ rest record
    cases cs with
    | nil =>
      simp only [renderRecord]
      rw [runCsv_escapeCell c ('\n' :: rest) [] record (by simp)]
      simp [runCsv]
    | cons c2 cs2 =>
      rw [show renderRecord (c :: c2 :: cs2)
            = escapeCell c ++ ',' :: renderRecord (c2 :: cs2) from rfl]
      rw [show (escapeCell c ++ ',' :: renderRecord (c2 :: cs2)) ++ '\n' :: rest
            = escapeCell c ++ ',' :: (renderRecord (c2 :: cs2) ++ '\n' :: rest) from
          by simp]
      rw [runCsv_escapeCell c _ [] record (by simp)]
      have step : runCsv (',' :: (renderRecord (c2 :: cs2) ++ '\n' :: rest))
          ([] ++ c) record .plain
          = runCsv (renderRecord (c2 :: cs2) ++ '\n' :: rest) []
              (record ++ [[] ++ c]) .plain := by
        simp [runCsv]
      rw [step, ih (by simp) rest (record ++ [[] ++ c])]
      simp

/-- Reading a whole rendered CSV text recovers exactly the rendered
records. -/
lemma runCsv_renderCsv :
    ∀ (records : List (List (List Char))), (∀ r ∈ records, r ≠ []) →
    runCsv (renderCsv records) [] [] .plain = records := by
  intro records
  induction records with
  | nil => intro _; simp [renderCsv, runCsv]
  | cons r rs ih =>
    intro h
    rw [show renderCsv (r :: rs) = renderRecord r ++ '\n' :: renderCsv rs from
        by simp [renderCsv]]
    rw [runCsv_renderRecord r (h r (by simp)) (renderCsv rs) []]
    rw [ih (fun x hx => h x (by simp [hx]))]
    simp

/- ### Lemmas: the leadership insert loop -/

/-- What a successful insert loop produces: one row per answer, all rows
carrying the generated session id and the transaction timestamp, with
positional question ids `"q1"`, `"q2"`, ... -/
lemma lidLoop_some :
    ∀ (fail : Nat → Bool) (sid ts idBase : Nat) (data : List LAnswer)
      (i : Nat) (rows : List LidRow),
    lidLoop fail sid ts idBase i data = some rows →
    rows.length = data.length ∧
    rows.map (fun r => r.question_id)
      = (List.range data.length).map (fun k => "q" ++ toString (k + i)) ∧
    ∀ r ∈ rows, r.session_id = sid ∧ r.timestamp = ts := by
  intro fail sid ts idBase data
  induction data with
  | nil =>
    intro i rows h
    simp only [lidLoop, Option.some.injEq] at h
    subst h
    simp
  | cons a rest ih =>
    intro i rows h
    simp only [lidLoop] at h
    by_cases hfi : fail i
    · simp [hfi] at h
    · rw [if_neg hfi, Option.map_eq_some'] at h
      obtain ⟨rows', hrec, rfl⟩ := h
      obtain ⟨hlen, hmap, hall⟩ := ih (i + 1) rows' hrec
      refine ⟨by simp [hlen], ?_, ?_⟩
      · rw [List.map_cons, hmap, List.length_cons, List.range_succ_eq_map]
        simp only [List.map_cons, List.map_map, Nat.zero_add]
        congr 1
        apply List.map_congr_left
        intro k _
        simp only [Function.comp_apply]
        congr 2
        omega
      · intro r hr
        rcases List.mem_cons.1 hr with h | h
        · subst h; exact ⟨rfl, rfl⟩
        · exact hall r h

/-- If any attempted insert fails, the whole loop reports the exception. -/
lemma lidLoop_none :
    ∀ (fail : Nat → Bool) (sid ts idBase : Nat) (data : List LAnswer) (i j : Nat),
    i ≤ j → j < i + data.length → fail j = true →
    lidLoop fail sid ts idBase i data = none := by
  intro fail sid ts idBase data
  induction data with
  | nil =>
    intro i j hij hlt _
    simp only [List.length_nil, Nat.add_zero] at hlt
    omega
  | cons a rest ih =>
    intro i j hij hlt hj
    by_cases hfi : fail i
    · simp [lidLoop, hfi]
    · have hne : j ≠ i := fun h => hfi (h ▸ hj)
      have h1 : i + 1 ≤ j := by omega
      have h2 : j < (i + 1) + rest.length := by
        simp only [List.length_cons] at hlt
        omega
      simp [lidLoop, hfi, ih (i + 1) j h1 h2 hj]

/-- The loop never reads the caller-supplied question ids: two answer lists
agreeing on responses and elapsed times produce identical results. -/
lemma lidLoop_congr (fail : Nat → Bool) (sid ts idBase : Nat) :
    ∀ (data data' : List LAnswer),
    data.map (fun a => a.2) = data'.map (fun a => a.2) →
    ∀ i, lidLoop fail sid ts idBase i data = lidLoop fail sid ts idBase i data' := by
  intro data
  induction data with
  | nil =>
    intro data' h i
    have : data' = [] := by
      cases data' with
      | nil => rfl
      | cons b l => simp at h
    subst this
    rfl
  | cons a rest ih =>
    intro data' h i
    cases data' with
    | nil => simp at h
    | cons a' rest' =>
      simp only [List.map_cons, List.cons.injEq] at h
      obtain ⟨ha, hrest⟩ := h
      simp only [lidLoop, ih rest' hrest (i + 1), ha]

/- ### Lemmas: association-list lookup of the statistics builders -/

/-- Looking up a key absent from the source keys of a keyed `filterMap`
finds nothing. -/
lemma lookup_filterMap_none {β γ : Type} :
    ∀ (l : List (String × β)) (F : String × β → Option γ) (d : String),
    d ∉ l.map Prod.fst →
    (l.filterMap (fun p => (F p).map (fun v => (p.1, v)))).lookup d = none := by
  intro l F d
  induction l with
  | nil => intro _; rfl
  | cons p rest ih =>
    intro h
    simp only [List.map_cons, List.mem_cons] at h
    push_neg at h
    obtain ⟨h1, h2⟩ := h
    cases hf : F p with
    | none =>
      simp only [List.filterMap_cons, hf, Option.map_none']
      exact ih h2
    | some v =>
      have hbeq : (d == p.1) = false := by simp [h1]
      simp only [List.filterMap_cons, hf, Option.map_some', List.lookup_cons, hbeq]
      exact ih h2

/-- Looking up a source key of a keyed `filterMap` returns exactly what the
per-key computation produced for it, provided the source keys are
distinct. -/
lemma lookup_filterMap_keyed {β γ : Type} :
    ∀ (l : List (String × β)) (F : String × β → Option γ) (d : String) (b : β),
    (l.map Prod.fst).Nodup → (d, b) ∈ l →
    (l.filterMap (fun p => (F p).map (fun v => (p.1, v)))).lookup d = F (d, b) := by
  intro l F d b
  induction l with
  | nil => intro _ hmem; exact absurd hmem (List.not_mem_nil _)
  | cons p rest ih =>
    intro hnd hmem
    simp only [List.map_cons, List.nodup_cons] at hnd
    obtain ⟨hp, hnd'⟩ := hnd
    rcases List.mem_cons.1 hmem with h | h
    · have hd : d = p.1 := by rw [← h]
      subst hd
      have hb : b = p.2 := by rw [← h]
      subst hb
      cases hf : F p with
      | none =>
        simp only [List.filterMap_cons, hf, Option.map_none']
        rw [lookup_filterMap_none rest F p.1 hp]
      | some v =>
        simp only [List.filterMap_cons, hf, Option.map_some', List.lookup_cons_self]
    · have hne : ¬ d = p.1 := by
        intro hcontra
        apply hp
        apply List.mem_map.2
        exact ⟨(d, b), h, hcontra⟩
      cases hf : F p with
      | none =>
        simp only [List.filterMap_cons, hf, Option.map_none']
        exact ih hnd' h
      | some v =>
        have hbeq : (d == p.1) = false := by simp [hne]
        simp only [List.filterMap_cons, hf, Option.map_some', List.lookup_cons, hbeq]
        exact ih hnd' h

/-- Key-only variant of `lookup_filterMap_keyed`, for builders indexed by a
plain key list. -/
lemma lookup_filterMap_key {γ : Type} :
    ∀ (l : List String) (f : String → Option γ) (d : String),
    l.Nodup →
    (l.filterMap (fun k => (f k).map (fun v => (k, v)))).lookup d
      = if d ∈ l then f d else none := by
  intro l f d
  induction l with
  | nil => intro _; simp
  | cons k rest ih =>
    intro hnd
    simp only [List.nodup_cons] at hnd
    obtain ⟨hk, hnd'⟩ := hnd
    by_cases hdk : d = k
    · subst hdk
      cases hf : f d with
      | none =>
        simp only [List.filterMap_cons, hf, Option.map_none']
        rw [ih hnd']
        simp [hk, hf]
      | some v =>
        simp only [List.filterMap_cons, hf, Option.map_some', List.lookup_cons_self]
        simp [hf]
    · cases hf : f k with
      | none =>
        simp only [List.filterMap_cons, hf, Option.map_none']
        rw [ih hnd']
        simp [hdk]
      | some v =>
        have hbeq : (d == k) = false := by simp [hdk]
        simp only [List.filterMap_cons, hf, Option.map_some', List.lookup_cons, hbeq]
        rw [ih hnd']
        simp [hdk]

/-- Looking up in a map keyed by its own elements. -/
lemma lookup_map_self {γ : Type} :
    ∀ (l : List String) (g : String → γ) (v : String),
    (l.map (fun k => (k, g k))).lookup v = if v ∈ l then some (g v) else none := by
  intro l g v
  induction l with
  | nil => simp
  | cons k rest ih =>
    simp only [List.map_cons, List.lookup_cons]
    by_cases hvk : v = k
    · subst hvk
      simp
    · have hbeq : (v == k) = false := by simp [hvk]
      simp only [hbeq, ih]
      simp [hvk]

/- ### Lemmas: `uniqueFirst` -/

/-- `uniqueFirst` preserves membership. -/
lemma mem_uniqueFirst : ∀ (l : List String) (x : String),
    x ∈ uniqueFirst l ↔ x ∈ l := by
  intro l
  induction l using uniqueFirst.induct with
  | case1 => intro x; simp [uniqueFirst]
  | case2 y ys ih =>
    intro x
    rw [uniqueFirst]
    simp only [List.mem_cons, ih x, List.mem_filter]
    constructor
    · rintro (rfl | ⟨hmem, _⟩)
      · exact Or.inl rfl
      · exact Or.inr hmem
    · rintro (rfl | hmem)
      · exact Or.inl rfl
      · by_cases hxy : x = y
        · exact Or.inl hxy
        · exact Or.inr ⟨hmem, by simp [hxy]⟩

/-- `uniqueFirst` has no duplicates. -/
lemma nodup_uniqueFirst : ∀ (l : List String), (uniqueFirst l).Nodup := by
  intro l
  induction l using uniqueFirst.induct with
  | case1 => simp [uniqueFirst]
  | case2 y ys ih =>
    rw [uniqueFirst]
    refine List.nodup_cons.2 ⟨?_, ih⟩
    intro hmem
    have := (mem_uniqueFirst _ y).1 hmem
    simp [List.mem_filter] at this

/- ### Concrete fixtures used by the witness theorems -/

/-- An empty database, id sequences at 1, clock and uuid source at 0. -/
def db0 : DB := ⟨[], [], [], 1, 1, 1, 0, 0⟩

/-- An injective stand-in for the password digest. -/
def idHash : String → String := fun s => s

/-- The database after adding one user to `db0`. -/
def db1 : DB := (add_user idHash db0 "admin" "pw1" "administrador").1

/- ### Claim theorems -/

/-- C1: for every (username, password) pair successfully added via
`add_user`, a subsequent `check_login` with the same pair returns the
matching identity (id, username, role), and `check_login` with the same
username but a wrong password returns nothing.  Collision-freedom of the
SHA-256 digest is taken as injectivity of the digest parameter. -/
theorem check_login_after_add_user (hash : String → String)
    (hinj : Function.Injective hash) (db db' : DB) (u p role : String)
    (hadd : add_user hash db u p role = (db', true)) :
    check_login hash db' u p = some ⟨db.nextUserId, u, role⟩ ∧
    ∀ p', p' ≠ p → check_login hash db' u p' = none := by
  unfold add_user at hadd
  by_cases hany : db.users.any (fun r => r.username == u)
  · rw [if_pos hany] at hadd
    exact absurd (congrArg Prod.snd hadd) (by simp)
  · rw [if_neg hany] at hadd
    have hany' : db.users.any (fun r => r.username == u) = false := by
      simpa using hany
    have hnone : ∀ r ∈ db.users, (r.username == u) = false := by
      intro r hr
      have := List.any_eq_false.1 hany' r hr
      simpa using this
    have hdb' : db' = { db with
        users := db.users ++ [⟨db.nextUserId, u, hash p, role, db.clock⟩],
        nextUserId := db.nextUserId + 1,
        clock := db.clock + 1 } := (congrArg Prod.fst hadd).symm
    subst hdb'
    constructor
    · unfold check_login
      rw [List.find?_append]
      have h1 : db.users.find? (fun r => r.username == u && r.password == hash p)
          = none := by
        rw [List.find?_eq_none]
        intro r hr
        simp [hnone r hr]
      rw [h1, Option.none_or]
      simp
    · intro p' hp'
      unfold check_login
      have hfind : ((db.users ++ [(⟨db.nextUserId, u, hash p, role, db.clock⟩ : UserRow)]).find?
          (fun r => r.username == u && r.password == hash p')) = none := by
        rw [List.find?_eq_none]
        intro r hr
        rcases List.mem_append.1 hr with h | h
        · simp [hnone r h]
        · have hr' : r = ⟨db.nextUserId, u, hash p, role, db.clock⟩ :=
            List.mem_singleton.1 h
          subst hr'
          have hne : hash p ≠ hash p' := fun hc => hp' (hinj hc).symm
          simp [hne]
      rw [hfind]
      rfl

/-- C1 witness: on the concrete store `db1` built by adding
`("admin", "pw1")` to the empty store, login succeeds with the right
identity and fails with a wrong password. -/
theorem check_login_after_add_user_witness :
    check_login idHash db1 "admin" "pw1"
      = some ⟨1, "admin", "administrador"⟩ ∧
    check_login idHash db1 "admin" "pw2" = none := by
  have h := check_login_after_add_user idHash (fun a b hab => hab) db0 db1
    "admin" "pw1" "administrador" rfl
  exact ⟨h.1, h.2 "pw2" (by decide)⟩

/-- C7: adding a user whose username already exists leaves the store
unchanged, raises no uniqueness violation, and reports failure. -/
theorem add_user_duplicate (hash : String → String) (db : DB) (u p role : String)
    (h : ∃ r ∈ db.users, r.username = u) :
    add_user hash db u p role = (db, false) := by
  unfold add_user
  rw [if_pos]
  obtain ⟨r, hr, hru⟩ := h
  exact List.any_eq_true.2 ⟨r, hr, by simp [hru]⟩

/-- C7 witness: re-adding the username `"admin"` to `db1` is a failing
no-op. -/
theorem add_user_duplicate_witness :
    add_user idHash db1 "admin" "other" "gestor" = (db1, false) :=
  add_user_duplicate idHash db1 "admin" "other" "gestor"
    ⟨⟨1, "admin", "pw1", "administrador", 0⟩, by decide, rfl⟩

/- ### Fixtures for the survey-repository witnesses -/

/-- An insert oracle that never fails. -/
def fail0 : Nat → Bool := fun _ => false

/-- An insert oracle failing at the second insert. -/
def fail2w : Nat → Bool := fun j => j == 2

/-- Three leadership answers. -/
def data3 : List LAnswer := [("qa", "SIM", 1), ("qb", "NÃO", 2), ("qc", "SIM", 3)]

/-- The same three answers under different caller-side question ids. -/
def data3b : List LAnswer := [("x1", "SIM", 1), ("x2", "NÃO", 2), ("x3", "SIM", 3)]

/-- The database after submitting `data3` to `db0`. -/
def dbL : DB := (save_lideranca_response fail0 db0 data3).1

/-- C2: a successful `save_lideranca_response` with N answers inserts
exactly N rows, all sharing the one freshly generated session identifier
(`db.uuidSeed`, unseen by the freshness invariant), with positional question
ids q1..qN; loading the table afterwards and keeping the rows of that
session id yields exactly those N rows. -/
theorem save_lideranca_inserts (fail : Nat → Bool) (db db' : DB)
    (data : List LAnswer)
    (hfresh : ∀ r ∈ db.lideranca, r.session_id < db.uuidSeed)
    (hok : save_lideranca_response fail db data = (db', true)) :
    db'.lideranca.length = db.lideranca.length + data.length ∧
    ((load_lideranca_responses db').filter
      (fun r => r.session_id == db.uuidSeed)).length = data.length ∧
    List.Perm
      (((load_lideranca_responses db').filter
        (fun r => r.session_id == db.uuidSeed)).map (fun r => r.question_id))
      ((List.range data.length).map (fun k => "q" ++ toString (k + 1))) := by
  unfold save_lideranca_response at hok
  cases hloop : lidLoop fail db.uuidSeed db.clock db.nextLidId 1 data with
  | none =>
    rw [hloop] at hok
    exact absurd (congrArg Prod.snd hok) (by simp)
  | some rows =>
    rw [hloop] at hok
    obtain ⟨hlen, hmap, hall⟩ :=
      lidLoop_some fail db.uuidSeed db.clock db.nextLidId data 1 rows hloop
    have hdb' : db' = { db with
        lideranca := db.lideranca ++ rows,
        nextLidId := db.nextLidId + data.length,
        uuidSeed := db.uuidSeed + 1,
        clock := db.clock + 1 } := (congrArg Prod.fst hok).symm
    subst hdb'
    have hperm := List.perm_insertionSort
      (fun a b : LidRow => b.timestamp ≤ a.timestamp) (db.lideranca ++ rows)
    have hfilter := hperm.filter (fun r => r.session_id == db.uuidSeed)
    have hf1 : db.lideranca.filter (fun r => r.session_id == db.uuidSeed) = [] := by
      rw [List.filter_eq_nil_iff]
      intro r hr
      have hlt := hfresh r hr
      simp only [beq_iff_eq]
      omega
    have hf2 : rows.filter (fun r => r.session_id == db.uuidSeed) = rows := by
      rw [List.filter_eq_self]
      intro r hr
      simp [(hall r hr).1]
    have hcomb : (db.lideranca ++ rows).filter
        (fun r => r.session_id == db.uuidSeed) = rows := by
      rw [List.filter_append, hf1, hf2, List.nil_append]
    rw [hcomb] at hfilter
    refine ⟨by simp [hlen], ?_, ?_⟩
    · rw [show load_lideranca_responses { db with
          lideranca := db.lideranca ++ rows,
          nextLidId := db.nextLidId + data.length,
          uuidSeed := db.uuidSeed + 1,
          clock := db.clock + 1 }
        = List.insertionSort (fun a b : LidRow => b.timestamp ≤ a.timestamp)
            (db.lideranca ++ rows) from rfl]
      rw [hfilter.length_eq, hlen]
    · have hqs := hfilter.map (fun r => r.question_id)
      rw [hmap] at hqs
      exact hqs

/-- C2 witness: submitting the three concrete answers `data3` to the empty
store `db0` inserts exactly three rows, and the loaded rows of the generated
session carry question ids q1, q2, q3. -/
theorem save_lideranca_inserts_witness :
    dbL.lideranca.length = db0.lideranca.length + data3.length ∧
    ((load_lideranca_responses dbL).filter
      (fun r => r.session_id == db0.uuidSeed)).length = data3.length ∧
    List.Perm
      (((load_lideranca_responses dbL).filter
        (fun r => r.session_id == db0.uuidSeed)).map (fun r => r.question_id))
      ((List.range data3.length).map (fun k => "q" ++ toString (k + 1))) :=
  save_lideranca_inserts fail0 db0 dbL data3
    (by intro r hr; simp [db0] at hr) rfl

/-- C3: when an insert fails, both save operations roll the transaction
back: the state is returned unchanged and failure is reported. -/
theorem rollback_on_failure (db : DB) (scores : List Int) (com : String)
    (fail2 : Nat → Bool) (data : List LAnswer) (j : Nat)
    (h1 : 1 ≤ j) (h2 : j < 1 + data.length) (hj : fail2 j = true) :
    save_hpo_response true db scores com = (db, false) ∧
    save_lideranca_response fail2 db data = (db, false) := by
  constructor
  · rfl
  · unfold save_lideranca_response
    rw [lidLoop_none fail2 db.uuidSeed db.clock db.nextLidId data 1 j h1 h2 hj]

/-- C3 witness: a failing HPO insert and a leadership submission whose
second insert fails both leave the concrete store `db0` unchanged and
report failure. -/
theorem rollback_on_failure_witness :
    save_hpo_response true db0 [5, 5, 5] "x" = (db0, false) ∧
    save_lideranca_response fail2w db0 data3 = (db0, false) :=
  rollback_on_failure db0 [5, 5, 5] "x" fail2w data3 2
    (by decide) (by decide) (by decide)

/-- C10 (implicit): `save_lideranca_response` ignores the caller-supplied
question ids entirely — two answer sequences agreeing on responses and
elapsed times produce identical results — and the stored question id of the
i-th row is `"q" ++ toString (i+1)`, determined solely by position. -/
theorem save_lideranca_ignores_question_id (fail : Nat → Bool) (db : DB)
    (data data' : List LAnswer)
    (h : data.map (fun a => a.2) = data'.map (fun a => a.2)) :
    save_lideranca_response fail db data = save_lideranca_response fail db data' ∧
    ∀ rows, lidLoop fail db.uuidSeed db.clock db.nextLidId 1 data = some rows →
      rows.map (fun r => r.question_id)
        = (List.range data.length).map (fun k => "q" ++ toString (k + 1)) := by
  constructor
  · unfold save_lideranca_response
    rw [lidLoop_congr fail db.uuidSeed db.clock db.nextLidId data data' h 1]
    have hlen : data.length = data'.length := by
      have hc := congrArg List.length h
      simpa using hc
    rw [hlen]
  · intro rows hloop
    exact (lidLoop_some fail db.uuidSeed db.clock db.nextLidId data 1 rows hloop).2.1

/-- C10 witness: submitting `data3` and `data3b` (same responses and times,
different caller question ids) to `db0` produces identical results. -/
theorem save_lideranca_ignores_question_id_witness :
    save_lideranca_response fail0 db0 data3
      = save_lideranca_response fail0 db0 data3b :=
  (save_lideranca_ignores_question_id fail0 db0 data3 data3b rfl).1

/-- C8: a successful `delete_all_responses` leaves both response tables
empty, so both loads return empty sequences afterwards. -/
theorem clear_all_empties (fail : Bool) (db db' : DB)
    (h : delete_all_responses fail db = (db', true)) :
    load_hpo_responses db' = [] ∧ load_lideranca_responses db' = [] ∧
    db'.responses = [] ∧ db'.lideranca = [] := by
  cases fail with
  | true => exact absurd (congrArg Prod.snd h) (by simp [delete_all_responses])
  | false =>
    have hdb' : db' = { db with responses := [], lideranca := [] } :=
      (congrArg Prod.fst h).symm
    subst hdb'
    exact ⟨rfl, rfl, rfl, rfl⟩

/-- C8 witness: clearing the populated concrete store `dbL` empties both
loads. -/
theorem clear_all_empties_witness :
    load_hpo_responses (delete_all_responses false dbL).1 = [] ∧
    load_lideranca_responses (delete_all_responses false dbL).1 = [] ∧
    (delete_all_responses false dbL).1.responses = [] ∧
    (delete_all_responses false dbL).1.lideranca = [] :=
  clear_all_empties false dbL (delete_all_responses false dbL).1 rfl

/- ### Fixtures for the statistics witnesses -/

/-- A scored row with domain A values 4 and 5, all other domains null. -/
def rowA1 : HPORow :=
  { id := 1, timestamp := 0, a1 := some 4, a2 := some 5,
    b1 := none, b2 := none, c1 := none, c2 := none, d1 := none, d2 := none,
    e1 := none, e2 := none, f1 := none, f2 := none, g1 := none, g2 := none,
    comentario := "", session_id := 0 }

/-- A scored row with domain A values 2 and 3, all other domains null. -/
def rowA2 : HPORow := { rowA1 with id := 2, a1 := some 2, a2 := some 3 }

/-- The two-row frame of the spec's worked example. -/
def dfA : List HPORow := [rowA1, rowA2]

/-- C4: for every row set and every domain of the fixed seven, the computed
statistics entry pools the non-null values of the domain's two columns and
reports their mean (exact rational), count, max and min; a domain with no
data is omitted from the result. -/
theorem hpo_stats_lookup (df : List HPORow) (d : String) (cols : List Col)
    (hmem : (d, cols) ∈ hpoDomains) :
    (calculate_hpo_stats df).lookup d =
      if pooledScores df cols = [] then none
      else some
        { mean := ((pooledScores df cols).sum : Rat) / ((pooledScores df cols).length : Rat),
          count := (pooledScores df cols).length,
          max := pyMax (pooledScores df cols),
          min := pyMin (pooledScores df cols) } := by
  by_cases hdf : df.isEmpty
  · have hdfe : df = [] := List.isEmpty_iff.1 hdf
    subst hdfe
    have hp : pooledScores [] cols = [] := by simp [pooledScores]
    rw [hp]
    simp [calculate_hpo_stats]
  · unfold calculate_hpo_stats
    rw [if_neg hdf]
    have hnd : (hpoDomains.map Prod.fst).Nodup := by decide
    rw [lookup_filterMap_keyed hpoDomains (fun p => domainResult df p.2) d cols hnd hmem]
    unfold domainResult
    cases hpl : pooledScores df cols with
    | nil => simp
    | cons x xs => simp [domStats]

/-- C4 witness: on the two concrete rows with domain A values [4,5] and
[2,3], domain A reports mean 7/2 = 3.5, count 4, max 5, min 2. -/
theorem hpo_stats_lookup_witness :
    (("A", [Col.a1, Col.a2]) ∈ hpoDomains) ∧
    (calculate_hpo_stats dfA).lookup "A"
      = some { mean := (7 : Rat) / 2, count := 4, max := 5, min := 2 } := by
  refine ⟨by decide, ?_⟩
  rw [hpo_stats_lookup dfA "A" [Col.a1, Col.a2] (by decide)]
  rw [show pooledScores dfA [Col.a1, Col.a2] = [4, 2, 5, 3] from rfl]
  rw [show pyMax [4, 2, 5, 3] = 5 from rfl, show pyMin [4, 2, 5, 3] = 2 from rfl,
    show ([4, 2, 5, 3] : List Int).sum = 14 from rfl]
  rw [if_neg (by simp : ¬([4, 2, 5, 3] : List Int) = [])]
  norm_num

/-- The distribution produced by `valueCounts` is exactly the mapping from
each occurring response value to its number of occurrences. -/
lemma valueCounts_lookup (l : List String) (v : String) :
    (valueCounts l).lookup v = if l.count v = 0 then none else some (l.count v) := by
  unfold valueCounts
  rw [lookup_map_self (uniqueFirst l) (fun w => l.count w) v]
  by_cases hv : v ∈ l
  · rw [if_pos ((mem_uniqueFirst l v).2 hv), if_neg]
    intro hc
    exact (List.count_eq_zero.1 hc) hv
  · rw [if_neg (fun hm => hv ((mem_uniqueFirst l v).1 hm)),
      if_pos (List.count_eq_zero.2 hv)]

/-- C5: for every row set and question id, the computed entry counts the
question's answers (total) and maps each upper-cased response value to its
frequency; questions with no answers are absent. -/
theorem lideranca_stats_lookup (df : List LidRow) (q : String) :
    ((calculate_lideranca_stats df).lookup q =
      if df.filter (fun r => r.question_id == q) = [] then none
      else some
        { total := (df.filter (fun r => r.question_id == q)).length,
          distribution := valueCounts ((df.filter (fun r => r.question_id == q)).map
            (fun r => pyUpper r.response)) }) ∧
    ∀ v, (valueCounts ((df.filter (fun r => r.question_id == q)).map
        (fun r => pyUpper r.response))).lookup v
      = if ((df.filter (fun r => r.question_id == q)).map
            (fun r => pyUpper r.response)).count v = 0 then none
        else some (((df.filter (fun r => r.question_id == q)).map
            (fun r => pyUpper r.response)).count v) := by
  have hqr : questionResult df q =
      (if df.filter (fun r => r.question_id == q) = [] then none
       else some
        { total := (df.filter (fun r => r.question_id == q)).length,
          distribution := valueCounts ((df.filter (fun r => r.question_id == q)).map
            (fun r => pyUpper r.response)) }) := by
    unfold questionResult
    cases hfl : df.filter (fun r => r.question_id == q) with
    | nil => simp
    | cons x xs => simp
  refine ⟨?_, fun v => valueCounts_lookup _ v⟩
  rw [← hqr]
  by_cases hdf : df.isEmpty
  · have hdfe : df = [] := List.isEmpty_iff.1 hdf
    subst hdfe
    simp [calculate_lideranca_stats, questionResult]
  · unfold calculate_lideranca_stats
    rw [if_neg hdf]
    rw [lookup_filterMap_key (uniqueFirst (df.map (fun r => r.question_id)))
      (fun w => questionResult df w) q (nodup_uniqueFirst _)]
    by_cases hq : q ∈ uniqueFirst (df.map (fun r => r.question_id))
    · rw [if_pos hq]
    · rw [if_neg hq]
      have hnotin : q ∉ df.map (fun r => r.question_id) :=
        fun hm => hq ((mem_uniqueFirst _ q).2 hm)
      have hfl : df.filter (fun r => r.question_id == q) = [] := by
        rw [List.filter_eq_nil_iff]
        intro r hr hrq
        apply hnotin
        refine List.mem_map.2 ⟨r, hr, ?_⟩
        simpa using hrq
      unfold questionResult
      rw [hfl]
      simp

/-- C6: both aggregation functions are pure — two runs on the same input
rows produce the same output; as total functions of the row lists alone
they perform no I/O. -/
theorem stats_pure (df df' : List HPORow) (l l' : List LidRow)
    (h1 : df = df') (h2 : l = l') :
    calculate_hpo_stats df = calculate_hpo_stats df' ∧
    calculate_lideranca_stats l = calculate_lideranca_stats l' := by
  subst h1
  subst h2
  exact ⟨rfl, rfl⟩

/-- C6 witness: two runs on the concrete inputs coincide. -/
theorem stats_pure_witness :
    calculate_hpo_stats dfA = calculate_hpo_stats dfA ∧
    calculate_lideranca_stats [] = calculate_lideranca_stats [] :=
  stats_pure dfA dfA [] [] rfl rfl

/-- C9: round-trip — parsing the rendered CSV of any scored-response row
set returns exactly the header record followed by every row's column
values, preserving row count and column values. -/
theorem export_csv_roundtrip (rows : List HPORow) :
    parseCsv (export_csv rows) = hpoHeader :: rows.map hpoCells ∧
    (parseCsv (export_csv rows)).length = rows.length + 1 := by
  have hne : ∀ r ∈ hpoHeader :: rows.map hpoCells, r ≠ [] := by
    intro r hr
    rcases List.mem_cons.1 hr with h | h
    · subst h
      simp [hpoHeader, hpoColumns]
    · obtain ⟨x, hx, rfl⟩ := List.mem_map.1 h
      simp [hpoCells]
  have h : parseCsv (export_csv rows) = hpoHeader :: rows.map hpoCells :=
    runCsv_renderCsv (hpoHeader :: rows.map hpoCells) hne
  refine ⟨h, ?_⟩
  rw [h]
  simp

end Inquerito
